import Mathlib

/-!
# Malformed-report recovery parser: shallow embedding

This file embeds the text-splitting core of `pero-mcp-server`:

* `src/biz/apple/apple_csv_handler.py` — `split_broken_csv` and
  `read_csv_into_parts`, which split a malformed two-part tab-separated
  export around a `Total_Rows` sentinel line;
* `src/clients/appstoreconnect/handlers/analytics_handler.py` —
  `split_file_by_keyword`, which splits raw text at the first occurrence
  of a keyword substring.

Text is modelled as `List Char`; a file is a single `List Char` that the
routines split on newline characters, mirroring the Python line iteration.
Python `line.strip()` is modelled by `trim` over ASCII whitespace (the
Python version also strips other Unicode whitespace, which no claim
exercises).  The pandas calls `pd.read_csv(StringIO(content), sep='\t')`
are modelled by the field tokenizer the specification describes: the
header line and each data line are split on the tab character, and the
parsed row count is the number of tokenized data lines.  File-system
concerns (existence and extension checks) sit outside the embedded core,
which receives the file content directly.
-/

namespace PeroMcp

/-- Split a character list on a separator character.  Always returns at
least one (possibly empty) field; mirrors Python `str.split(sep)`. -/
def splitSep (sep : Char) : List Char → List (List Char)
  | [] => [[]]
  | c :: rest =>
    if c = sep then
      [] :: splitSep sep rest
    else
      match splitSep sep rest with
      | [] => [[c]]
      | f :: fs => (c :: f) :: fs

/-- Join fields with a separator character; inverse of `splitSep`. -/
def joinSep (sep : Char) : List (List Char) → List Char
  | [] => []
  | [f] => f
  | f :: fs => f ++ sep :: joinSep sep fs

/-- ASCII whitespace, the characters Python `str.strip()` removes from
report lines in practice. -/
def wsChar (c : Char) : Bool :=
  c = ' ' || c = '\t' || c = '\r' || c = '\n'

/-- Python `str.strip()`: drop leading and trailing whitespace. -/
def trim (l : List Char) : List Char :=
  (((l.dropWhile wsChar).reverse.dropWhile wsChar)).reverse

/-- `[line.strip() for line in f if line.strip()]`: split the raw text on
newlines, strip each line, keep the non-empty ones. -/
def normalizeLines (raw : List Char) : List (List Char) :=
  ((splitSep '\n' raw).map trim).filter (fun l => !l.isEmpty)

/-- Index of the first line satisfying a predicate, mirroring the Python
`for i, line in enumerate(lines): if line.startswith(...)` scan. -/
def findFirstIdx (p : List Char → Bool) : List (List Char) → Option Nat
  | [] => none
  | l :: ls =>
    if p l then some 0 else (findFirstIdx p ls).map (· + 1)

/-- The sentinel label hardcoded by both recovery routines. -/
def sentinelLabel : List Char := "Total_Rows".data

/-- `line.startswith('Total_Rows')`. -/
def isSentinel (l : List Char) : Bool :=
  sentinelLabel.isPrefixOf l

/-- A recovered table: tokenized header fields (when a header line
exists) and tokenized data rows.  Models the dataframe produced by
`pd.read_csv(..., sep='\t')` at the string level. -/
structure Table where
  header : Option (List (List Char))
  rows : List (List (List Char))
deriving DecidableEq

/-- The empty dataframe `pd.DataFrame()`. -/
def Table.emptyTable : Table := ⟨none, []⟩

/-- Build a table from a header line and data lines by splitting each on
the tab character. -/
def parseTable (headerLine : List Char) (dataLines : List (List Char)) : Table :=
  ⟨some (splitSep '\t' headerLine), dataLines.map (splitSep '\t')⟩

/-- Field-to-value records: each row paired positionally with the header,
as the specification step 6 describes. -/
def Table.records (t : Table) : List (List (List Char × List Char)) :=
  t.rows.map (fun r => (t.header.getD []).zip r)

/-- Re-serialize a recovered table with tab separators: the header line
(when present) followed by one line per row. -/
def tableLines (t : Table) : List (List Char) :=
  (match t.header with
   | none => []
   | some fields => [joinSep '\t' fields]) ++ t.rows.map (joinSep '\t')

/-- `(df_part1, total_rows, df_part2)`. -/
structure RecoveryResult where
  first : Table
  sentinel : List Char
  second : Table
deriving DecidableEq

/-- Error outcomes of the two recovery routines.  `sentinelNotFound` is
the `ValueError` raised by `split_broken_csv` when no line starts with
the label; `malformedSentinel` is the error `read_csv_into_parts` raises
(an `IndexError` converted to `ValueError`) when the sentinel line has no
second tab-separated field; `indexError` is an uncaught `IndexError` in
`split_broken_csv`. -/
inductive RecoverError where
  | sentinelNotFound
  | malformedSentinel
  | indexError
deriving DecidableEq

instance exceptDecEq {ε α : Type} [DecidableEq ε] [DecidableEq α] :
    DecidableEq (Except ε α)
  | .error e, .error f =>
    if h : e = f then .isTrue (by rw [h]) else
      .isFalse (fun hc => h (Except.error.inj hc))
  | .error _, .ok _ => .isFalse (fun hc => Except.noConfusion hc)
  | .ok _, .error _ => .isFalse (fun hc => Except.noConfusion hc)
  | .ok a, .ok b =>
    if h : a = b then .isTrue (by rw [h]) else
      .isFalse (fun hc => h (Except.ok.inj hc))

/-- Core of `read_csv_into_parts` after line normalization. -/
def recoverLines (ls : List (List Char)) : Except RecoverError RecoveryResult :=
  match findFirstIdx isSentinel ls with
  | none =>
    -- fallback: split positionally at the midpoint
    let m := ls.length / 2
    if 0 < m then
      let part1 := parseTable (ls.headD []) ((ls.drop 1).take (m - 1))
      let total := (Nat.repr part1.rows.length).data
      let part2 :=
        if m < ls.length then
          parseTable (ls.getD m []) (ls.drop (m + 1))
        else
          Table.emptyTable
      Except.ok ⟨part1, total, part2⟩
    else
      Except.ok ⟨Table.emptyTable, ['0'], Table.emptyTable⟩
  | some s =>
    let part1 := parseTable (ls.headD []) ((ls.drop 1).take (s - 1))
    let fields := splitSep '\t' (ls.getD s [])
    if 2 ≤ fields.length then
      let value := fields.getD 1 []
      let part2 :=
        if s + 1 < ls.length then
          parseTable (ls.getD (s + 1) [])
            (if s + 2 < ls.length then ls.drop (s + 2) else [])
        else
          Table.emptyTable
      Except.ok ⟨part1, value, part2⟩
    else
      Except.error RecoverError.malformedSentinel

/-- `read_csv_into_parts` on raw file content: the `recover` operation of
the specification. -/
def recover (raw : List Char) : Except RecoverError RecoveryResult :=
  recoverLines (normalizeLines raw)

/-- Core of `split_broken_csv` after line normalization.  No fallback: a
missing sentinel raises; the sentinel extraction `split('\t')[1]` and the
header access `lines[total_row_index + 1]` raise `IndexError` when out of
range. -/
def splitBrokenCsvLines (ls : List (List Char)) : Except RecoverError RecoveryResult :=
  match findFirstIdx isSentinel ls with
  | none => Except.error RecoverError.sentinelNotFound
  | some s =>
    let part1 := parseTable (ls.headD []) ((ls.drop 1).take (s - 1))
    let fields := splitSep '\t' (ls.getD s [])
    if 2 ≤ fields.length then
      if s + 1 < ls.length then
        Except.ok ⟨part1, fields.getD 1 [],
          parseTable (ls.getD (s + 1) []) (ls.drop (s + 2))⟩
      else
        Except.error RecoverError.indexError
    else
      Except.error RecoverError.indexError

/-- `split_broken_csv` on raw file content. -/
def splitBrokenCsv (raw : List Char) : Except RecoverError RecoveryResult :=
  splitBrokenCsvLines (normalizeLines raw)

/-- First index at which `kw` occurs as a contiguous sublist of `text`. -/
def findSubIdx (text kw : List Char) : Option Nat :=
  if kw.isPrefixOf text then some 0
  else
    match text with
    | [] => none
    | _ :: rest => (findSubIdx rest kw).map (· + 1)

/-- `split_file_by_keyword` content logic: `none` models the
`(None, None)` return.  Python `content.split(keyword, 1)` raises
`ValueError` on an empty separator, which the surrounding handler turns
into `(None, None)` as well, hence the empty-keyword guard. -/
def splitOnKeyword (text kw : List Char) : Option (List Char × List Char) :=
  if kw = [] then none
  else
    match findSubIdx text kw with
    | none => none
    | some i => some (text.take i, text.drop (i + kw.length))


end PeroMcp

namespace PeroMcp

/-! ## Separator split and join -/

theorem splitSep_ne_nil (sep : Char) (l : List Char) : splitSep sep l ≠ [] := by
  cases l with
  | nil => simp [splitSep]
  | cons c rest =>
    by_cases h : c = sep
    · simp [splitSep, h]
    · simp only [splitSep, if_neg h]
      cases splitSep sep rest <;> simp

theorem joinSep_cons (sep : Char) (f : List Char) (fs : List (List Char))
    (h : fs ≠ []) : joinSep sep (f :: fs) = f ++ sep :: joinSep sep fs := by
  cases fs with
  | nil => exact absurd rfl h
  | cons g gs => rfl

theorem joinSep_splitSep (sep : Char) (l : List Char) :
    joinSep sep (splitSep sep l) = l := by
  induction l with
  | nil => rfl
  | cons c rest ih =>
    by_cases h : c = sep
    · rw [splitSep, if_pos h,
        joinSep_cons sep [] (splitSep sep rest) (splitSep_ne_nil sep rest), ih, h]
      rfl
    · rw [splitSep, if_neg h]
      rcases hs : splitSep sep rest with _ | ⟨f, fs⟩
      · exact absurd hs (splitSep_ne_nil sep rest)
      · rw [hs] at ih
        cases fs with
        | nil =>
          simpa [joinSep] using congrArg (c :: ·) ih
        | cons g gs =>
          rw [joinSep_cons sep (c :: f) (g :: gs) (by simp)] at *
          rw [joinSep_cons sep f (g :: gs) (by simp)] at ih
          simpa using congrArg (c :: ·) ih

theorem not_mem_splitSep (sep : Char) (l : List Char) (f : List Char)
    (hf : f ∈ splitSep sep l) : sep ∉ f := by
  induction l generalizing f with
  | nil =>
    simp only [splitSep, List.mem_singleton] at hf
    simp [hf]
  | cons c rest ih =>
    by_cases h : c = sep
    · rw [splitSep, if_pos h] at hf
      rcases List.mem_cons.mp hf with rfl | hmem
      · simp
      · exact ih f hmem
    · rw [splitSep, if_neg h] at hf
      rcases hs : splitSep sep rest with _ | ⟨g, gs⟩
      · exact absurd hs (splitSep_ne_nil sep rest)
      · rw [hs] at hf
        rcases List.mem_cons.mp hf with rfl | hmem
        · intro hmem2
          rcases List.mem_cons.mp hmem2 with hc | hg
          · exact h hc.symm
          · exact ih g (hs ▸ List.mem_cons_self g gs) hg
        · exact ih f (hs ▸ List.mem_cons_of_mem g hmem)

theorem splitSep_no_sep (sep : Char) (f : List Char) (hf : sep ∉ f) :
    splitSep sep f = [f] := by
  induction f with
  | nil => rfl
  | cons c t ih =>
    have hc : ¬ c = sep := fun h => hf (h ▸ List.mem_cons_self c t)
    rw [splitSep, if_neg hc, ih (fun h => hf (List.mem_cons_of_mem c h))]

theorem splitSep_append_sep (sep : Char) (f r : List Char) (hf : sep ∉ f) :
    splitSep sep (f ++ sep :: r) = f :: splitSep sep r := by
  induction f with
  | nil => simp [splitSep]
  | cons c t ih =>
    have hc : ¬ c = sep := fun h => hf (h ▸ List.mem_cons_self c t)
    rw [List.cons_append, splitSep, if_neg hc,
      ih (fun h => hf (List.mem_cons_of_mem c h))]

theorem splitSep_joinSep (sep : Char) (fs : List (List Char)) (hne : fs ≠ [])
    (h : ∀ f ∈ fs, sep ∉ f) : splitSep sep (joinSep sep fs) = fs := by
  induction fs with
  | nil => exact absurd rfl hne
  | cons f fs ih =>
    cases fs with
    | nil => exact splitSep_no_sep sep f (h f (List.mem_singleton.mpr rfl))
    | cons g gs =>
      rw [joinSep_cons sep f (g :: gs) (by simp),
        splitSep_append_sep sep f _ (h f (List.mem_cons_self f _)),
        ih (by simp) (fun x hx => h x (List.mem_cons_of_mem f hx))]

/-! ## First-index scan -/

theorem findFirstIdx_eq_none_iff (p : List Char → Bool) (ls : List (List Char)) :
    findFirstIdx p ls = none ↔ ∀ l ∈ ls, p l = false := by
  induction ls with
  | nil => simp [findFirstIdx]
  | cons l ls ih =>
    by_cases h : p l
    · simp [findFirstIdx, h]
    · simp only [findFirstIdx, if_neg h, Option.map_eq_none', ih,
        List.mem_cons]
      constructor
      · rintro hall x (rfl | hx)
        · simpa using h
        · exact hall x hx
      · intro hall x hx
        exact hall x (Or.inr hx)

theorem findFirstIdx_lt_length (p : List Char → Bool) (ls : List (List Char))
    (s : Nat) (h : findFirstIdx p ls = some s) : s < ls.length := by
  induction ls generalizing s with
  | nil => simp [findFirstIdx] at h
  | cons l ls ih =>
    by_cases hp : p l
    · simp only [findFirstIdx, if_pos hp, Option.some.injEq] at h
      simp [← h]
    · simp only [findFirstIdx, if_neg hp, Option.map_eq_some'] at h
      obtain ⟨t, ht, rfl⟩ := h
      simpa using ih t ht

theorem findFirstIdx_pos (p : List Char → Bool) (ls : List (List Char))
    (s : Nat) (h : findFirstIdx p ls = some s) : p (ls.getD s []) = true := by
  induction ls generalizing s with
  | nil => simp [findFirstIdx] at h
  | cons l ls ih =>
    by_cases hp : p l
    · simp only [findFirstIdx, if_pos hp, Option.some.injEq] at h
      simpa [← h] using hp
    · simp only [findFirstIdx, if_neg hp, Option.map_eq_some'] at h
      obtain ⟨t, ht, rfl⟩ := h
      simpa using ih t ht

theorem findFirstIdx_min (p : List Char → Bool) (ls : List (List Char))
    (s : Nat) (h : findFirstIdx p ls = some s) :
    ∀ j, j < s → p (ls.getD j []) = false := by
  induction ls generalizing s with
  | nil => simp [findFirstIdx] at h
  | cons l ls ih =>
    by_cases hp : p l
    · simp only [findFirstIdx, if_pos hp, Option.some.injEq] at h
      omega
    · simp only [findFirstIdx, if_neg hp, Option.map_eq_some'] at h
      obtain ⟨t, ht, rfl⟩ := h
      intro j hj
      cases j with
      | zero => simpa using hp
      | succ k => simpa using ih t ht k (by omega)

/-! ## Trimming -/

theorem dropWhile_dropWhile (p : Char → Bool) (l : List Char) :
    List.dropWhile p (List.dropWhile p l) = List.dropWhile p l := by
  induction l with
  | nil => rfl
  | cons c rest ih =>
    by_cases h : p c
    · simpa [List.dropWhile, h] using ih
    · simp [List.dropWhile, h]

theorem dropWhile_head_false (p : Char → Bool) (l : List Char) (a : Char)
    (t : List Char) (h : List.dropWhile p l = a :: t) : p a = false := by
  induction l with
  | nil => simp [List.dropWhile] at h
  | cons c rest ih =>
    by_cases hp : p c
    · rw [List.dropWhile_cons_of_pos hp] at h
      exact ih h
    · rw [List.dropWhile_cons_of_neg hp] at h
      cases h
      simpa using hp

theorem trim_trim (l : List Char) : trim (trim l) = trim l := by
  unfold trim
  set u := List.dropWhile wsChar l with hu
  set v := List.dropWhile wsChar u.reverse with hv
  have hdw : List.dropWhile wsChar v.reverse = v.reverse := by
    rcases hrv : v.reverse with _ | ⟨a, t⟩
    · rfl
    · have hpref : v.reverse <+: u := by
        have hsuf : v <:+ u.reverse := hv ▸ List.dropWhile_suffix (l := u.reverse) wsChar
        have h2 : v.reverse.reverse <:+ u.reverse := by simpa using hsuf
        exact List.reverse_suffix.mp h2
      obtain ⟨rest, hrest⟩ := hpref
      have hwa : wsChar a = false := by
        apply dropWhile_head_false wsChar l a (t ++ rest)
        rw [← hu, ← hrest, hrv]
        simp
      exact List.dropWhile_cons_of_neg (by simp [hwa])
  rw [hdw, List.reverse_reverse, hv, dropWhile_dropWhile]

theorem mem_trim (l : List Char) (c : Char) (h : c ∈ trim l) : c ∈ l := by
  unfold trim at h
  rw [List.mem_reverse] at h
  have h2 := ((List.dropWhile_suffix (l := (List.dropWhile wsChar l).reverse)
    wsChar).sublist.subset) h
  rw [List.mem_reverse] at h2
  exact (List.dropWhile_suffix (l := l) wsChar).sublist.subset h2

/-! ## Line normalization -/

theorem mem_normalizeLines (raw l : List Char) (h : l ∈ normalizeLines raw) :
    trim l = l ∧ l ≠ [] ∧ '\n' ∉ l := by
  unfold normalizeLines at h
  have h1 := List.mem_of_mem_filter h
  have h2 := List.of_mem_filter h
  obtain ⟨x, hx, rfl⟩ := List.mem_map.mp h1
  refine ⟨trim_trim x, ?_, ?_⟩
  · intro hnil
    rw [hnil] at h2
    simp at h2
  · intro hmem
    exact not_mem_splitSep '\n' raw x hx (mem_trim x '\n' hmem)

theorem normalizeLines_reconstruct (ls : List (List Char)) (hne : ls ≠ [])
    (h : ∀ l ∈ ls, trim l = l ∧ l ≠ [] ∧ '\n' ∉ l) :
    normalizeLines (joinSep '\n' ls) = ls := by
  unfold normalizeLines
  rw [splitSep_joinSep '\n' ls hne (fun f hf => (h f hf).2.2)]
  have hmap : ls.map trim = ls := by
    have hcg : ∀ a ∈ ls, trim a = id a := fun a ha => (h a ha).1
    rw [List.map_congr_left hcg, List.map_id]
  rw [hmap]
  rw [List.filter_eq_self.mpr]
  intro a ha
  have := (h a ha).2.1
  simpa [List.isEmpty_iff] using this

/-! ## Substring search -/

theorem findSubIdx_spec (text kw : List Char) (i : Nat)
    (h : findSubIdx text kw = some i) :
    kw <+: text.drop i ∧ ∀ j, j < i → ¬ kw <+: text.drop j := by
  induction text generalizing i with
  | nil =>
    by_cases hp : kw.isPrefixOf ([] : List Char)
    · rw [findSubIdx, if_pos hp, Option.some.injEq] at h
      exact ⟨h ▸ List.isPrefixOf_iff_prefix.mp hp, by omega⟩
    · rw [findSubIdx, if_neg hp] at h
      exact absurd h (by simp)
  | cons c rest ih =>
    by_cases hp : kw.isPrefixOf (c :: rest)
    · rw [findSubIdx, if_pos hp, Option.some.injEq] at h
      subst h
      exact ⟨List.isPrefixOf_iff_prefix.mp hp, by omega⟩
    · rw [findSubIdx, if_neg hp, Option.map_eq_some'] at h
      obtain ⟨t, ht, rfl⟩ := h
      obtain ⟨hpref, hmin⟩ := ih t ht
      refine ⟨hpref, fun j hj => ?_⟩
      cases j with
      | zero =>
        simpa using fun hc => hp (List.isPrefixOf_iff_prefix.mpr hc)
      | succ k =>
        simpa using hmin k (by omega)

theorem findSubIdx_of_infix (text kw : List Char) (hocc : kw <:+: text) :
    ∃ i, findSubIdx text kw = some i := by
  induction text with
  | nil =>
    obtain ⟨s, t, hst⟩ := hocc
    have hk : kw = [] := by
      rcases List.append_eq_nil.mp hst with ⟨h1, h2⟩
      exact (List.append_eq_nil.mp h1).2
    exact ⟨0, by rw [findSubIdx, if_pos (by simp [hk, List.isPrefixOf])]⟩
  | cons c rest ih =>
    by_cases hp : kw.isPrefixOf (c :: rest)
    · exact ⟨0, by rw [findSubIdx, if_pos hp]⟩
    · obtain ⟨s, t, hst⟩ := hocc
      cases s with
      | nil =>
        exfalso
        exact hp (List.isPrefixOf_iff_prefix.mpr ⟨t, by simpa using hst⟩)
      | cons d ds =>
        have hrest : kw <:+: rest := ⟨ds, t, by
          have h2 := (by simpa using hst : d = c ∧ ds ++ (kw ++ t) = rest)
          simpa using h2.2⟩
        obtain ⟨i, hi⟩ := ih hrest
        exact ⟨i + 1, by rw [findSubIdx, if_neg hp, hi]; rfl⟩

/-! ## Table serialization -/

theorem tableLines_parseTable (headerLine : List Char)
    (dataLines : List (List Char)) :
    tableLines (parseTable headerLine dataLines) = headerLine :: dataLines := by
  unfold tableLines parseTable
  simp only [List.map_map]
  have hmap : dataLines.map (joinSep '\t' ∘ splitSep '\t') = dataLines := by
    have hcg : ∀ a ∈ dataLines, (joinSep '\t' ∘ splitSep '\t') a = id a :=
      fun a _ => joinSep_splitSep '\t' a
    rw [List.map_congr_left hcg, List.map_id]
  rw [hmap, joinSep_splitSep]
  rfl

theorem headD_eq_getD (ls : List (List Char)) : ls.headD [] = ls.getD 0 [] := by
  cases ls <;> rfl

theorem head_cons_take (ls : List (List Char)) (s : Nat) (hne : ls ≠ [])
    (hs : 1 ≤ s) : ls.headD [] :: (ls.drop 1).take (s - 1) = ls.take s := by
  cases ls with
  | nil => exact absurd rfl hne
  | cons a t =>
    cases s with
    | zero => omega
    | succ k => simp [List.take_succ_cons]

/-! ## Claims -/

/-- C1: when the non-empty trimmed lines contain a sentinel line (first
line beginning with `Total_Rows`) at index `s` with at least two
tab-separated fields, `recover` returns a first table with header line 0
and data lines `[1, s)`, the second tab-separated field of line `s` as the
sentinel value, and a second table with header line `s+1` and data lines
`[s+2, end)`; on the concrete Scenario A input the first table rows are
`[{H1:a, H2:b}]`, the sentinel value is `"2"`, and the second table rows
are `[{H3:c, H4:d}]`. -/
theorem recover_sentinel_structure (raw : List Char) (s : Nat)
    (hfind : findFirstIdx isSentinel (normalizeLines raw) = some s)
    (hfields : 2 ≤ (splitSep '\t' ((normalizeLines raw).getD s [])).length) :
    (∃ res, recover raw = Except.ok res ∧
      res.first.header = some (splitSep '\t' ((normalizeLines raw).getD 0 [])) ∧
      res.first.rows =
        (((normalizeLines raw).take s).drop 1).map (splitSep '\t') ∧
      res.sentinel = (splitSep '\t' ((normalizeLines raw).getD s [])).getD 1 [] ∧
      (s + 1 < (normalizeLines raw).length →
        res.second.header =
          some (splitSep '\t' ((normalizeLines raw).getD (s + 1) [])) ∧
        res.second.rows =
          ((normalizeLines raw).drop (s + 2)).map (splitSep '\t'))) ∧
    recover "H1\tH2\na\tb\nTotal_Rows\t2\nH3\tH4\nc\td".data =
      Except.ok ⟨⟨some ["H1".data, "H2".data], [["a".data, "b".data]]⟩, "2".data,
        ⟨some ["H3".data, "H4".data], [["c".data, "d".data]]⟩⟩ ∧
    Table.records ⟨some ["H1".data, "H2".data], [["a".data, "b".data]]⟩ =
      [[("H1".data, "a".data), ("H2".data, "b".data)]] ∧
    Table.records ⟨some ["H3".data, "H4".data], [["c".data, "d".data]]⟩ =
      [[("H3".data, "c".data), ("H4".data, "d".data)]] := by
  constructor
  · have hok : recover raw = Except.ok
        ⟨parseTable ((normalizeLines raw).headD [])
            (((normalizeLines raw).drop 1).take (s - 1)),
          (splitSep '\t' ((normalizeLines raw).getD s [])).getD 1 [],
          if s + 1 < (normalizeLines raw).length then
            parseTable ((normalizeLines raw).getD (s + 1) [])
              (if s + 2 < (normalizeLines raw).length then
                (normalizeLines raw).drop (s + 2) else [])
          else Table.emptyTable⟩ := by
      unfold recover recoverLines
      rw [hfind]
      simp only [if_pos hfields]
    refine ⟨_, hok, ?_, ?_, rfl, ?_⟩
    · simp only [parseTable]
      rw [headD_eq_getD]
    · simp only [parseTable]
      rw [List.drop_take]
    · intro hlt
      rw [if_pos hlt]
      constructor
      · simp [parseTable]
      · simp only [parseTable]
        by_cases h2 : s + 2 < (normalizeLines raw).length
        · rw [if_pos h2]
        · rw [if_neg h2, List.drop_eq_nil_of_le (by omega)]
  · exact ⟨by decide, by decide, by decide⟩

/-- C1 witness: Scenario A instantiates the hypotheses with `s = 2`. -/
theorem recover_sentinel_structure_witness :
    findFirstIdx isSentinel
        (normalizeLines "H1\tH2\na\tb\nTotal_Rows\t2\nH3\tH4\nc\td".data) =
      some 2 ∧
    2 ≤ (splitSep '\t'
        ((normalizeLines "H1\tH2\na\tb\nTotal_Rows\t2\nH3\tH4\nc\td".data).getD
          2 [])).length ∧
    (∃ res, recover "H1\tH2\na\tb\nTotal_Rows\t2\nH3\tH4\nc\td".data =
        Except.ok res ∧
      res.first.header = some (splitSep '\t'
        ((normalizeLines "H1\tH2\na\tb\nTotal_Rows\t2\nH3\tH4\nc\td".data).getD
          0 [])) ∧
      res.first.rows =
        (((normalizeLines "H1\tH2\na\tb\nTotal_Rows\t2\nH3\tH4\nc\td".data).take
          2).drop 1).map (splitSep '\t') ∧
      res.sentinel = (splitSep '\t'
        ((normalizeLines "H1\tH2\na\tb\nTotal_Rows\t2\nH3\tH4\nc\td".data).getD
          2 [])).getD 1 [] ∧
      (2 + 1 <
          (normalizeLines "H1\tH2\na\tb\nTotal_Rows\t2\nH3\tH4\nc\td".data).length →
        res.second.header = some (splitSep '\t'
          ((normalizeLines
            "H1\tH2\na\tb\nTotal_Rows\t2\nH3\tH4\nc\td".data).getD (2 + 1) [])) ∧
        res.second.rows =
          ((normalizeLines "H1\tH2\na\tb\nTotal_Rows\t2\nH3\tH4\nc\td".data).drop
            (2 + 2)).map (splitSep '\t'))) :=
  ⟨by decide, by decide,
    (recover_sentinel_structure "H1\tH2\na\tb\nTotal_Rows\t2\nH3\tH4\nc\td".data 2
      (by decide) (by decide)).1⟩

/-- C2: with at least two non-empty trimmed lines and no sentinel line,
`recover` succeeds via the positional fallback: it splits at
`m = lineCount / 2`, builds the first table from header line 0 and data
lines `[1, m)`, uses line `m` as the second table header with data lines
`[m+1, end)`, and reports as sentinel value the decimal string of the
first table's parsed row count. -/
theorem recover_fallback_structure (raw : List Char)
    (hlen : 2 ≤ (normalizeLines raw).length)
    (hno : ∀ l ∈ normalizeLines raw, isSentinel l = false) :
    ∃ res, recover raw = Except.ok res ∧
      res.first.header = some (splitSep '\t' ((normalizeLines raw).getD 0 [])) ∧
      res.first.rows =
        (((normalizeLines raw).take ((normalizeLines raw).length / 2)).drop 1).map
          (splitSep '\t') ∧
      res.sentinel = (Nat.repr res.first.rows.length).data ∧
      res.second.header =
        some (splitSep '\t'
          ((normalizeLines raw).getD ((normalizeLines raw).length / 2) [])) ∧
      res.second.rows =
        ((normalizeLines raw).drop ((normalizeLines raw).length / 2 + 1)).map
          (splitSep '\t') := by
  have hfind : findFirstIdx isSentinel (normalizeLines raw) = none :=
    (findFirstIdx_eq_none_iff _ _).mpr hno
  have hm : 0 < (normalizeLines raw).length / 2 := by omega
  have hmlt : (normalizeLines raw).length / 2 < (normalizeLines raw).length := by
    omega
  have hok : recover raw = Except.ok
      ⟨parseTable ((normalizeLines raw).headD [])
          (((normalizeLines raw).drop 1).take ((normalizeLines raw).length / 2 - 1)),
        (Nat.repr (parseTable ((normalizeLines raw).headD [])
          (((normalizeLines raw).drop 1).take
            ((normalizeLines raw).length / 2 - 1))).rows.length).data,
        parseTable ((normalizeLines raw).getD ((normalizeLines raw).length / 2) [])
          ((normalizeLines raw).drop ((normalizeLines raw).length / 2 + 1))⟩ := by
    unfold recover recoverLines
    rw [hfind]
    simp only [if_pos hm, if_pos hmlt]
  refine ⟨_, hok, ?_, ?_, rfl, ?_, ?_⟩
  · simp only [parseTable]
    rw [headD_eq_getD]
  · simp only [parseTable]
    rw [List.drop_take]
  · simp [parseTable]
  · simp [parseTable]

/-- C2 witness: Scenario B, four lines and no sentinel, splits at `m = 2`. -/
theorem recover_fallback_structure_witness :
    2 ≤ (normalizeLines "H\tK\na\tb\nX\tY\nc\td".data).length ∧
    (∀ l ∈ normalizeLines "H\tK\na\tb\nX\tY\nc\td".data, isSentinel l = false) ∧
    (∃ res, recover "H\tK\na\tb\nX\tY\nc\td".data = Except.ok res ∧
      res.first.header =
        some (splitSep '\t' ((normalizeLines "H\tK\na\tb\nX\tY\nc\td".data).getD 0 [])) ∧
      res.first.rows =
        (((normalizeLines "H\tK\na\tb\nX\tY\nc\td".data).take
          ((normalizeLines "H\tK\na\tb\nX\tY\nc\td".data).length / 2)).drop 1).map
          (splitSep '\t') ∧
      res.sentinel = (Nat.repr res.first.rows.length).data ∧
      res.second.header =
        some (splitSep '\t'
          ((normalizeLines "H\tK\na\tb\nX\tY\nc\td".data).getD
            ((normalizeLines "H\tK\na\tb\nX\tY\nc\td".data).length / 2) [])) ∧
      res.second.rows =
        ((normalizeLines "H\tK\na\tb\nX\tY\nc\td".data).drop
          ((normalizeLines "H\tK\na\tb\nX\tY\nc\td".data).length / 2 + 1)).map
          (splitSep '\t')) :=
  ⟨by decide, by decide,
    recover_fallback_structure "H\tK\na\tb\nX\tY\nc\td".data (by decide) (by decide)⟩

/-- C3 counterexample: the empty input has zero non-empty trimmed lines,
yet `recover` returns a `RecoveryResult` (the degenerate empty result)
instead of failing with an empty-input error. -/
theorem recover_empty_counterexample :
    normalizeLines [] = [] ∧
    recover [] = Except.ok ⟨Table.emptyTable, ['0'], Table.emptyTable⟩ := by
  decide

/-- C3 amended: on input with zero non-empty trimmed lines,
`read_csv_into_parts` returns the degenerate result (empty first table,
sentinel value `"0"`, empty second table) rather than failing, while
`split_broken_csv` fails with its sentinel-not-found error rather than a
dedicated empty-input error. -/
theorem recover_empty_input (raw : List Char)
    (h : normalizeLines raw = []) :
    recover raw = Except.ok ⟨Table.emptyTable, ['0'], Table.emptyTable⟩ ∧
    splitBrokenCsv raw = Except.error RecoverError.sentinelNotFound := by
  unfold recover splitBrokenCsv
  rw [h]
  exact ⟨by decide, by decide⟩

/-- C3 witness: whitespace-only input normalizes to zero lines. -/
theorem recover_empty_input_witness :
    normalizeLines " \n\t \n ".data = [] ∧
    (recover " \n\t \n ".data =
        Except.ok ⟨Table.emptyTable, ['0'], Table.emptyTable⟩ ∧
      splitBrokenCsv " \n\t \n ".data =
        Except.error RecoverError.sentinelNotFound) :=
  ⟨by decide, recover_empty_input " \n\t \n ".data (by decide)⟩

/-- C4: when the first line beginning with the sentinel label has fewer
than two tab-separated fields, `recover` fails with the
malformed-sentinel error. -/
theorem recover_malformed_sentinel (raw : List Char) (s : Nat)
    (hfind : findFirstIdx isSentinel (normalizeLines raw) = some s)
    (hfields : (splitSep '\t' ((normalizeLines raw).getD s [])).length < 2) :
    recover raw = Except.error RecoverError.malformedSentinel := by
  unfold recover recoverLines
  rw [hfind]
  simp only [if_neg (by omega : ¬ 2 ≤ (splitSep '\t' ((normalizeLines raw).getD s [])).length)]

/-- C4 witness: a sentinel line with no tab at all. -/
theorem recover_malformed_sentinel_witness :
    findFirstIdx isSentinel (normalizeLines "H\nTotal_Rows".data) = some 1 ∧
    (splitSep '\t' ((normalizeLines "H\nTotal_Rows".data).getD 1 [])).length < 2 ∧
    recover "H\nTotal_Rows".data = Except.error RecoverError.malformedSentinel :=
  ⟨by decide, by decide,
    recover_malformed_sentinel "H\nTotal_Rows".data 1 (by decide) (by decide)⟩

/-- C5 counterexample: the input whose single line is `Total_Rows` has its
sentinel line at the last index, yet `recover` raises the
malformed-sentinel error instead of succeeding. -/
theorem recover_sentinel_last_counterexample :
    findFirstIdx isSentinel (normalizeLines "Total_Rows".data) =
      some ((normalizeLines "Total_Rows".data).length - 1) ∧
    recover "Total_Rows".data = Except.error RecoverError.malformedSentinel := by
  decide

/-- C5 amended: when the sentinel line is the last line and carries at
least two tab-separated fields, `recover` succeeds and the second table
is empty (no header, zero rows). -/
theorem recover_sentinel_last (raw : List Char) (s : Nat)
    (hfind : findFirstIdx isSentinel (normalizeLines raw) = some s)
    (hlast : s + 1 = (normalizeLines raw).length)
    (hfields : 2 ≤ (splitSep '\t' ((normalizeLines raw).getD s [])).length) :
    ∃ res, recover raw = Except.ok res ∧ res.second = Table.emptyTable := by
  unfold recover recoverLines
  rw [hfind]
  simp only [if_pos hfields, if_neg (by omega : ¬ s + 1 < (normalizeLines raw).length)]
  exact ⟨_, rfl, rfl⟩

/-- C5 witness: sentinel as the final line of a three-line input. -/
theorem recover_sentinel_last_witness :
    findFirstIdx isSentinel (normalizeLines "H\tK\na\tb\nTotal_Rows\t2".data) =
      some 2 ∧
    2 + 1 = (normalizeLines "H\tK\na\tb\nTotal_Rows\t2".data).length ∧
    2 ≤ (splitSep '\t'
      ((normalizeLines "H\tK\na\tb\nTotal_Rows\t2".data).getD 2 [])).length ∧
    (∃ res, recover "H\tK\na\tb\nTotal_Rows\t2".data = Except.ok res ∧
      res.second = Table.emptyTable) :=
  ⟨by decide, by decide, by decide,
    recover_sentinel_last "H\tK\na\tb\nTotal_Rows\t2".data 2
      (by decide) (by decide) (by decide)⟩

/-- C7: a single non-empty trimmed line with no sentinel goes through the
fallback with `m = 0`: empty first table, sentinel value `"0"`, empty
second table, the sole input line discarded. -/
theorem recover_single_line (raw : List Char)
    (hlen : (normalizeLines raw).length = 1)
    (hno : ∀ l ∈ normalizeLines raw, isSentinel l = false) :
    recover raw = Except.ok ⟨Table.emptyTable, ['0'], Table.emptyTable⟩ := by
  have hfind : findFirstIdx isSentinel (normalizeLines raw) = none :=
    (findFirstIdx_eq_none_iff _ _).mpr hno
  unfold recover recoverLines
  rw [hfind]
  simp only [if_neg (by omega : ¬ 0 < (normalizeLines raw).length / 2)]

/-- C7 witness: a lone header line. -/
theorem recover_single_line_witness :
    (normalizeLines "OnlyHeader".data).length = 1 ∧
    (∀ l ∈ normalizeLines "OnlyHeader".data, isSentinel l = false) ∧
    recover "OnlyHeader".data =
      Except.ok ⟨Table.emptyTable, ['0'], Table.emptyTable⟩ :=
  ⟨by decide, by decide,
    recover_single_line "OnlyHeader".data (by decide) (by decide)⟩

/-- C10: when no non-empty trimmed line begins with the sentinel label,
`split_broken_csv` fails with its `ValueError` and performs no positional
fallback, while `read_csv_into_parts` succeeds via its fallback, so the
two routines disagree on the no-sentinel case. -/
theorem splitBrokenCsv_no_sentinel (raw : List Char)
    (hno : ∀ l ∈ normalizeLines raw, isSentinel l = false) :
    splitBrokenCsv raw = Except.error RecoverError.sentinelNotFound ∧
    ∃ res, recover raw = Except.ok res := by
  have hfind : findFirstIdx isSentinel (normalizeLines raw) = none :=
    (findFirstIdx_eq_none_iff _ _).mpr hno
  constructor
  · unfold splitBrokenCsv splitBrokenCsvLines
    rw [hfind]
  · unfold recover recoverLines
    rw [hfind]
    by_cases hm : 0 < (normalizeLines raw).length / 2
    · simp only [if_pos hm]
      exact ⟨_, rfl⟩
    · simp only [if_neg hm]
      exact ⟨_, rfl⟩

/-- C10 witness: two plain lines without a sentinel. -/
theorem splitBrokenCsv_no_sentinel_witness :
    (∀ l ∈ normalizeLines "A\nB".data, isSentinel l = false) ∧
    (splitBrokenCsv "A\nB".data = Except.error RecoverError.sentinelNotFound ∧
      ∃ res, recover "A\nB".data = Except.ok res) :=
  ⟨by decide, splitBrokenCsv_no_sentinel "A\nB".data (by decide)⟩

/-- In the sentinel branch, re-serializing the recovered tables around the
sentinel line reproduces exactly the normalized input lines, provided the
sentinel is not the very first line. -/
theorem recoverLines_reserialize (ls : List (List Char)) (s : Nat)
    (res : RecoveryResult)
    (hfind : findFirstIdx isSentinel ls = some s)
    (hs : 1 ≤ s)
    (hok : recoverLines ls = Except.ok res) :
    tableLines res.first ++ (ls.getD s []) :: tableLines res.second = ls := by
  have hslt : s < ls.length := findFirstIdx_lt_length _ _ _ hfind
  have hne : ls ≠ [] := by
    intro h
    rw [h] at hslt
    simp at hslt
  have hfields : 2 ≤ (splitSep '\t' (ls.getD s [])).length := by
    by_contra hc
    unfold recoverLines at hok
    rw [hfind] at hok
    simp only [if_neg hc] at hok
    exact Except.noConfusion hok
  have hres : res = ⟨parseTable (ls.headD []) ((ls.drop 1).take (s - 1)),
      (splitSep '\t' (ls.getD s [])).getD 1 [],
      if s + 1 < ls.length then
        parseTable (ls.getD (s + 1) [])
          (if s + 2 < ls.length then ls.drop (s + 2) else [])
      else Table.emptyTable⟩ := by
    unfold recoverLines at hok
    rw [hfind] at hok
    simp only [if_pos hfields] at hok
    exact (Except.ok.inj hok).symm
  rw [hres]
  rw [tableLines_parseTable, head_cons_take ls s hne hs]
  have hsecond : tableLines (if s + 1 < ls.length then
      parseTable (ls.getD (s + 1) [])
        (if s + 2 < ls.length then ls.drop (s + 2) else [])
    else Table.emptyTable) = ls.drop (s + 1) := by
    by_cases hlt : s + 1 < ls.length
    · rw [if_pos hlt, tableLines_parseTable, List.getD_eq_getElem ls [] hlt]
      have hdrop2 : (if s + 2 < ls.length then ls.drop (s + 2) else []) =
          ls.drop (s + 2) := by
        by_cases h2 : s + 2 < ls.length
        · rw [if_pos h2]
        · rw [if_neg h2, List.drop_eq_nil_of_le (by omega)]
      rw [hdrop2]
      exact (List.drop_eq_getElem_cons hlt).symm
    · rw [if_neg hlt, List.drop_eq_nil_of_le (by omega)]
      rfl
  rw [hsecond, List.getD_eq_getElem ls [] hslt, ← List.drop_eq_getElem_cons hslt]
  exact List.take_append_drop s ls

/-- C6 amended: for inputs whose sentinel line is not the very first
line (index `s ≥ 1`), `recover` is idempotent on its reconstituted
output: re-running it on the tab-re-serialized concatenation of the first
table, the sentinel line, and the second table yields the same result. -/
theorem recover_idempotent (raw : List Char) (s : Nat) (res : RecoveryResult)
    (hfind : findFirstIdx isSentinel (normalizeLines raw) = some s)
    (hs : 1 ≤ s)
    (hok : recover raw = Except.ok res) :
    recover (joinSep '\n'
      (tableLines res.first ++
        ((normalizeLines raw).getD s []) :: tableLines res.second)) =
      Except.ok res := by
  have hok2 : recoverLines (normalizeLines raw) = Except.ok res := hok
  have hlist := recoverLines_reserialize (normalizeLines raw) s res hfind hs hok2
  have hslt : s < (normalizeLines raw).length :=
    findFirstIdx_lt_length _ _ _ hfind
  have hne : normalizeLines raw ≠ [] := by
    intro h
    rw [h] at hslt
    simp at hslt
  rw [hlist]
  unfold recover
  rw [normalizeLines_reconstruct (normalizeLines raw) hne
    (fun l hl => mem_normalizeLines raw l hl)]
  exact hok2

/-- C6 counterexample: when the sentinel is the very first line, the
first table header is the sentinel line itself; recovering the
reconstituted concatenation then yields a structurally different second
table, refuting idempotence as universally claimed. -/
theorem recover_idempotent_counterexample :
    findFirstIdx isSentinel (normalizeLines "Total_Rows\t5\nH\tK\na\tb".data) =
      some 0 ∧
    (normalizeLines "Total_Rows\t5\nH\tK\na\tb".data).getD 0 [] =
      "Total_Rows\t5".data ∧
    recover "Total_Rows\t5\nH\tK\na\tb".data =
      Except.ok ⟨⟨some ["Total_Rows".data, "5".data], []⟩, "5".data,
        ⟨some ["H".data, "K".data], [["a".data, "b".data]]⟩⟩ ∧
    recover (joinSep '\n'
      (tableLines ⟨some ["Total_Rows".data, "5".data], []⟩ ++
        ("Total_Rows\t5".data) ::
          tableLines ⟨some ["H".data, "K".data], [["a".data, "b".data]]⟩)) =
      Except.ok ⟨⟨some ["Total_Rows".data, "5".data], []⟩, "5".data,
        ⟨some ["Total_Rows".data, "5".data],
          [["H".data, "K".data], ["a".data, "b".data]]⟩⟩ ∧
    (⟨some ["H".data, "K".data], [["a".data, "b".data]]⟩ : Table) ≠
      ⟨some ["Total_Rows".data, "5".data],
        [["H".data, "K".data], ["a".data, "b".data]]⟩ := by
  decide

/-- C6 witness: Scenario A reconstitutes to the original input and
recovers identically. -/
theorem recover_idempotent_witness :
    findFirstIdx isSentinel
        (normalizeLines "H1\tH2\na\tb\nTotal_Rows\t2\nH3\tH4\nc\td".data) =
      some 2 ∧
    recover "H1\tH2\na\tb\nTotal_Rows\t2\nH3\tH4\nc\td".data =
      Except.ok ⟨⟨some ["H1".data, "H2".data], [["a".data, "b".data]]⟩, "2".data,
        ⟨some ["H3".data, "H4".data], [["c".data, "d".data]]⟩⟩ ∧
    recover (joinSep '\n'
      (tableLines ⟨some ["H1".data, "H2".data], [["a".data, "b".data]]⟩ ++
        ((normalizeLines "H1\tH2\na\tb\nTotal_Rows\t2\nH3\tH4\nc\td".data).getD
          2 []) ::
          tableLines ⟨some ["H3".data, "H4".data], [["c".data, "d".data]]⟩)) =
      Except.ok ⟨⟨some ["H1".data, "H2".data], [["a".data, "b".data]]⟩, "2".data,
        ⟨some ["H3".data, "H4".data], [["c".data, "d".data]]⟩⟩ :=
  ⟨by decide, by decide,
    recover_idempotent "H1\tH2\na\tb\nTotal_Rows\t2\nH3\tH4\nc\td".data 2
      ⟨⟨some ["H1".data, "H2".data], [["a".data, "b".data]]⟩, "2".data,
        ⟨some ["H3".data, "H4".data], [["c".data, "d".data]]⟩⟩
      (by decide) (by decide) (by decide)⟩

/-- C8 amended: for every text and non-empty keyword occurring in the
text, `splitOnKeyword` returns the text strictly before the first
occurrence and the text strictly after it, discarding the keyword: the
parts reconstruct the text and the keyword does not occur in the before
part; Scenario C splits `"AAAkeywordBBB"` into `("AAA", "BBB")`. -/
theorem splitOnKeyword_found (text kw : List Char) (hne : kw ≠ [])
    (hocc : kw <:+: text) :
    (∃ a b, splitOnKeyword text kw = some (a, b) ∧
      a ++ kw ++ b = text ∧ ¬ kw <:+: a) ∧
    splitOnKeyword "AAAkeywordBBB".data "keyword".data =
      some ("AAA".data, "BBB".data) := by
  refine ⟨?_, by decide⟩
  obtain ⟨i, hi⟩ := findSubIdx_of_infix text kw hocc
  obtain ⟨hpref, hmin⟩ := findSubIdx_spec text kw i hi
  obtain ⟨r, hr⟩ := hpref
  have hkw : 1 ≤ kw.length := by
    cases kw with
    | nil => exact absurd rfl hne
    | cons c t => simp
  have hil : i ≤ text.length := by
    by_contra hgt
    rw [List.drop_eq_nil_of_le (by omega)] at hr
    exact hne (List.append_eq_nil.mp hr).1
  refine ⟨text.take i, text.drop (i + kw.length), ?_, ?_, ?_⟩
  · unfold splitOnKeyword
    rw [if_neg hne, hi]
  · have hr2 : text.drop (i + kw.length) = r := by
      have h1 : List.drop kw.length (kw ++ r) = r := List.drop_left kw r
      rw [hr, List.drop_drop] at h1
      exact h1
    rw [hr2, List.append_assoc, hr]
    exact List.take_append_drop i text
  · rintro ⟨u, v, huv⟩
    have hltake : (text.take i).length = i := by
      rw [List.length_take]
      omega
    have hlen : u.length + kw.length + v.length = i := by
      have hcg := congrArg List.length huv
      rw [hltake] at hcg
      simp only [List.length_append] at hcg
      omega
    have hpref2 : kw <+: List.drop u.length text := by
      have h2 : List.drop u.length (text.take i) = kw ++ v := by
        rw [← huv, List.append_assoc]
        exact List.drop_left u (kw ++ v)
      have h3 : List.drop u.length (text.take i) <+: List.drop u.length text := by
        rw [List.drop_take]
        exact List.take_prefix _ _
      rw [h2] at h3
      exact List.IsPrefix.trans ⟨v, rfl⟩ h3
    exact hmin u.length (by omega) hpref2

/-- C8 witness: Scenario C satisfies the hypotheses. -/
theorem splitOnKeyword_found_witness :
    ("keyword".data ≠ ([] : List Char)) ∧
    "keyword".data <:+: "AAAkeywordBBB".data ∧
    ((∃ a b, splitOnKeyword "AAAkeywordBBB".data "keyword".data = some (a, b) ∧
      a ++ "keyword".data ++ b = "AAAkeywordBBB".data ∧
      ¬ "keyword".data <:+: a) ∧
     splitOnKeyword "AAAkeywordBBB".data "keyword".data =
       some ("AAA".data, "BBB".data)) :=
  ⟨by decide, by decide,
    splitOnKeyword_found "AAAkeywordBBB".data "keyword".data
      (by decide) (by decide)⟩

/-- C8 counterexample: the empty keyword occurs in `"A"` (every string
contains the empty substring), yet the routine returns the not-found
sentinel because Python `str.split` rejects an empty separator and the
handler maps that failure to `(None, None)`. -/
theorem splitOnKeyword_empty_counterexample :
    (([] : List Char) <:+: "A".data) ∧ splitOnKeyword "A".data [] = none := by
  decide

/-- C9: when the keyword does not occur in the text, `splitOnKeyword`
returns the explicit not-found result and no error. -/
theorem splitOnKeyword_not_found (text kw : List Char)
    (hocc : ¬ kw <:+: text) :
    splitOnKeyword text kw = none := by
  unfold splitOnKeyword
  by_cases hne : kw = []
  · rw [if_pos hne]
  · rw [if_neg hne]
    cases hfi : findSubIdx text kw with
    | none => rfl
    | some i =>
      exfalso
      obtain ⟨hpref, -⟩ := findSubIdx_spec text kw i hfi
      obtain ⟨r, hr⟩ := hpref
      refine hocc ⟨text.take i, r, ?_⟩
      rw [List.append_assoc, hr]
      exact List.take_append_drop i text

/-- C9 witness: Scenario D, keyword `"zzz"` absent from `"AAABBB"`. -/
theorem splitOnKeyword_not_found_witness :
    (¬ "zzz".data <:+: "AAABBB".data) ∧
    splitOnKeyword "AAABBB".data "zzz".data = none :=
  ⟨by decide, splitOnKeyword_not_found "AAABBB".data "zzz".data (by decide)⟩

end PeroMcp
